import Mathlib

/-!
Verification of the enumeration engine of the `node-enumerable` library
(`src/lib/index.ts`) against its natural-language specification.

The TypeScript code is shallowly embedded:

* a pull-based enumerator chain is represented by the `List` of items it
  would produce, consumed front to back exactly as the driving `while
  (e.moveNext())` loops do;
* the per-item `ItemContext` object is a record; a callback receives the
  freshly created context and returns the (possibly mutated) context,
  modelling the JS mutation of `cancel` / `nextValue` / `value`;
* a JS closure with captured mutable state (e.g. the decremented counter in
  `elementAt`, where the callback mutates a variable of the enclosing
  scope) is modelled by an explicit closure-state parameter `S` threaded
  through each invocation; callbacks without captured state use `S = Unit`;
* fallible methods (`first`, `single`, the collection mutators, ...) return
  `Except String` with the thrown message;
* the dynamic "textual lambda" argument form is outside the modelled core
  (the spec treats it as an external adapter); non-callable arguments are
  modelled by a small universe `JVal` of plain JavaScript values.
-/

set_option autoImplicit false

namespace NodeEnumerable

/-- Model of the per-item execution context (`class ItemContext<T>` in
`src/lib/index.ts`).  `item` mirrors the read-only `item` getter (the
enumerator's `current`), `index` the zero-based step index, and
`previousValue` / `nextValue` / `value` the carry channels.  `cancel` is the
cooperative cancellation flag. -/
structure ItemContext (T V : Type) where
  index : Nat
  item : T
  previousValue : Option V
  cancel : Bool
  nextValue : Option V
  value : Option V
  deriving Repr, DecidableEq

/-- Context as created at the top of every driving loop:
`new ItemContext(e, ++index, prevVal); ctx.value = value;`. -/
def mkCtx {T V : Type} (index : Nat) (item : T) (prevVal : Option V)
    (value : Option V) : ItemContext T V :=
  { index := index, item := item, previousValue := prevVal,
    cancel := false, nextValue := none, value := value }

/-- A predicate callback (`Predciate<T>` in the source, sic) with closure
state `S`: it receives its state, the item and the fresh context, and
returns the boolean verdict, the new closure state and the mutated
context. -/
abbrev Predciate (S T V : Type) :=
  S → T → ItemContext T V → Bool × S × ItemContext T V

/-- An aggregator callback (`Aggregator<T, U>` in the source) with closure
state `S`: `(result, item, ctx) -> newResult`. -/
abbrev AggregatorFn (S R T V : Type) :=
  S → R → T → ItemContext T V → R × S × ItemContext T V

/-- A selector callback (`Selector<T, U>` in the source) with closure
state `S`. -/
abbrev SelectorFn (S T U V : Type) :=
  S → T → ItemContext T V → U × S × ItemContext T V

/-- A predicate with no captured state and no context effect. -/
def pureP {S T V : Type} (q : T → Bool) : Predciate S T V :=
  fun s x ctx => (q x, s, ctx)

/-- The predicate produced by `toPredicateSafe` for an absent argument:
`() => true`. -/
def truePredciate {S T V : Type} : Predciate S T V :=
  fun s _x ctx => (true, s, ctx)

namespace Enumerable

/-! ### `distinct` (`Enumerable.distinctInner`, src/lib/index.ts:1483-1509)

The generator keeps a growing buffer `temp` of already-yielded items; an
incoming item is yielded (and pushed) iff no buffered item compares equal
to it under the configured equality comparer `ec(ctx.item, existingItem)`.
The comparer is an arbitrary boolean-valued function (the image of
`toEqualityComparerSafe`). -/

/-- Loop body of `distinctInner`: `temp` is the buffer of already yielded
items, scanned linearly in insertion order. -/
def distinctInner {T : Type} (ec : T → T → Bool) : List T → List T → List T
  | _, [] => []
  | temp, x :: rest =>
    if temp.any (fun existingItem => ec x existingItem) then
      distinctInner ec temp rest
    else
      x :: distinctInner ec (temp ++ [x]) rest

/-- `Enumerable.distinct(comparer)`: run `distinctInner` with an empty
buffer. -/
def distinct {T : Type} (ec : T → T → Bool) (xs : List T) : List T :=
  distinctInner ec [] xs

end Enumerable

/-- Definition following the words of claim C10 ("yields exactly those items
that are not comparer-equal to any previously yielded item, in source
order"): scan in source order, keeping an item iff it is not comparer-equal
to any previously kept item. -/
def firstOccurrencesAux {T : Type} (ec : T → T → Bool) :
    List T → List T → List T
  | _, [] => []
  | kept, x :: rest =>
    if kept.any (fun y => ec x y) then
      firstOccurrencesAux ec kept rest
    else
      x :: firstOccurrencesAux ec (kept ++ [x]) rest

/-- The subsequence of first occurrences, per the wording of claim C10. -/
def firstOccurrences {T : Type} (ec : T → T → Bool) (xs : List T) : List T :=
  firstOccurrencesAux ec [] xs

namespace Enumerable

/-! ### `where` (`Enumerable.whereInner`, src/lib/index.ts:2603-2625)

Per item: create the context, run the predicate, `break` if the (possibly
mutated) context has `cancel` set, otherwise yield the item iff the
predicate matched, then thread `prevVal := ctx.nextValue` and
`value := ctx.value` into the next step. -/

/-- The driving loop of `whereInner`, with the loop variables `index`,
closure state, `prevVal` and `value` explicit. -/
def whereInner {S T V : Type} (p : Predciate S T V) :
    Nat → S → Option V → Option V → List T → List T
  | _, _, _, _, [] => []
  | index, s, prevVal, value, x :: rest =>
    let r := p s x (mkCtx index x prevVal value)
    if r.2.2.cancel then []
    else if r.1 then
      x :: whereInner p (index + 1) r.2.1 r.2.2.nextValue r.2.2.value rest
    else
      whereInner p (index + 1) r.2.1 r.2.2.nextValue r.2.2.value rest

/-- `Enumerable.where(predicate)` (`where` is a Lean keyword, hence
`whereSeq`). -/
def whereSeq {S T V : Type} (p : Predciate S T V) (s0 : S) (xs : List T) :
    List T :=
  whereInner p 0 s0 none none xs

/-! ### `count` (src/lib/index.ts:1409-1437) -/

/-- The driving loop of `count`: `break` on `cancel` before the current
item is counted; otherwise increment `cnt` iff the predicate matched. -/
def countLoop {S T V : Type} (p : Predciate S T V) :
    Nat → S → Option V → Option V → Nat → List T → Nat
  | _, _, _, _, cnt, [] => cnt
  | index, s, prevVal, value, cnt, x :: rest =>
    let r := p s x (mkCtx index x prevVal value)
    if r.2.2.cancel then cnt
    else countLoop p (index + 1) r.2.1 r.2.2.nextValue r.2.2.value
      (if r.1 then cnt + 1 else cnt) rest

/-- `Enumerable.count(predicate)`. -/
def count {S T V : Type} (p : Predciate S T V) (s0 : S) (xs : List T) : Nat :=
  countLoop p 0 s0 none none 0 xs

/-! ### `aggregate` (src/lib/index.ts:1236-1274)

At index 0 the running result is seeded with the item itself
(`currentResult = ctx.item`, an untyped assignment modelled by `seed`);
from index 1 on the aggregator is invoked as
`(result, item, ctx) -> newResult`.  On `cancel` the loop breaks *before*
`result = currentResult`, so the just-computed value is discarded. -/

/-- The driving loop of `aggregate`. -/
def aggregateLoop {S R T V : Type} (a : AggregatorFn S R T V) (seed : T → R) :
    Nat → S → Option V → Option V → R → List T → R
  | _, _, _, _, result, [] => result
  | index, s, prevVal, value, result, x :: rest =>
    let r :=
      if index ≠ 0 then a s result x (mkCtx index x prevVal value)
      else (seed x, s, mkCtx index x prevVal value)
    if r.2.2.cancel then result
    else aggregateLoop a seed (index + 1) r.2.1 r.2.2.nextValue r.2.2.value
      r.1 rest

/-- `Enumerable.aggregate(aggregator, defaultValue)`: the running result
starts as `defaultValue`. -/
def aggregate {S R T V : Type} (a : AggregatorFn S R T V) (s0 : S)
    (seed : T → R) (defaultValue : R) (xs : List T) : R :=
  aggregateLoop a seed 0 s0 none none defaultValue xs

/-- An aggregator with no captured state and no context effect. -/
def pureAgg {S R T V : Type} (f : R → T → R) : AggregatorFn S R T V :=
  fun s result x ctx => (f result x, s, ctx)

/-- A predicate that matches according to `m` and sets `cancel` exactly at
step index `n` (used to exercise the cancellation protocol). -/
def cancelAtPred {T V : Type} (m : T → Bool) (n : Nat) : Predciate Unit T V :=
  fun s x ctx => (m x, s, { ctx with cancel := ctx.index == n })

/-- An aggregator folding with `f` that sets `cancel` exactly at step
index `n`. -/
def cancelAtAgg {R T V : Type} (f : R → T → R) (n : Nat) :
    AggregatorFn Unit R T V :=
  fun s result x ctx => (f result x, s, { ctx with cancel := ctx.index == n })

/-! ### `first` and `elementAt` (src/lib/index.ts:1598-1634, 1536-1546) -/

/-- The driving loop of `first`: `break` on `cancel` (then the not-found
failure is raised), otherwise return the first matching item. -/
def firstLoop {S T V : Type} (p : Predciate S T V) :
    Nat → S → Option V → Option V → List T → Except String T
  | _, _, _, _, [] => .error "No matching element found!"
  | index, s, prevVal, value, x :: rest =>
    let r := p s x (mkCtx index x prevVal value)
    if r.2.2.cancel then .error "No matching element found!"
    else if r.1 then .ok x
    else firstLoop p (index + 1) r.2.1 r.2.2.nextValue r.2.2.value rest

/-- `Enumerable.first(predicate)`. -/
def first {S T V : Type} (p : Predciate S T V) (s0 : S) (xs : List T) :
    Except String T :=
  firstLoop p 0 s0 none none xs

/-- `Enumerable.elementAt(index)`: fails on a negative index, otherwise
`return this.first((item, ctx) => 0 === index--)` — the closure's captured,
decremented counter is the closure state of the predicate. -/
def elementAt {T : Type} (xs : List T) (index : Int) : Except String T :=
  if index < 0 then .error "Index out of range!"
  else
    first (V := Unit)
      (fun (k : Int) _x ctx => (k == 0, k - 1, ctx)) index xs

end Enumerable

/-! ### Plain JavaScript values and the `...OrDefault` argument protocol
(`toOrDefaultArgs`, src/lib/index.ts:3514-3530; `asFunc`, 3379-3424)

A non-callable argument of an `...OrDefault` method is a plain JavaScript
value; `JVal` models those (numbers as integers; textual lambda expressions
are compiled by an adapter the spec places outside the core, so `JVal`
strings stand for strings that are not lambda expressions). -/

/-- A plain (non-callable) JavaScript value. -/
inductive JVal : Type where
  | undefined
  | jnull
  | jbool (b : Bool)
  | jnum (n : Int)
  | jstr (s : String)
  deriving Repr, DecidableEq

/-- JavaScript truthiness of a plain value. -/
def JVal.truthy : JVal → Bool
  | .undefined => false
  | .jnull => false
  | .jbool b => b
  | .jnum n => n != 0
  | .jstr s => s != ""

/-- The `predicateOrDefaultValue` argument: either a callable or a plain
value. -/
inductive PredOrVal (S T V : Type) : Type where
  | callable (p : Predciate S T V)
  | plain (v : JVal)

/-- The value `asFunc(v, false)` evaluates to: the callable itself, the
original value when it is falsy (`if (!v) return v;`), or the literal
`false` for a truthy non-lambda value. -/
inductive AsFuncRes (S T V : Type) : Type where
  | fn (p : Predciate S T V)
  | orig (v : JVal)
  | sentinelFalse

/-- `asFunc(v, false)` on an optional callable-or-plain argument (`none`
models the absent / `undefined` argument, which is falsy and returned
as-is). -/
def asFuncNoThrow {S T V : Type} :
    Option (PredOrVal S T V) → AsFuncRes S T V
  | none => .orig .undefined
  | some (.callable p) => .fn p
  | some (.plain v) => if v.truthy then .sentinelFalse else .orig v

/-- The JavaScript test `false === func` applied to the result of
`asFunc`: true for the literal `false` sentinel, and for the original value
when that value was the boolean `false` itself. -/
def isLiteralFalse {S T V : Type} : AsFuncRes S T V → Bool
  | .sentinelFalse => true
  | .orig (.jbool false) => true
  | _ => false

/-- `toPredicateSafe(val, obj)` (src/lib/index.ts:3542-3553): a callable is
wrapped with a boolean coercion (the identity here, predicates already
return `Bool`); a falsy value yields the always-true predicate; a truthy
non-callable, non-lambda value makes `asFunc` throw. -/
def toPredicateSafeModel {S T V : Type} :
    Option (PredOrVal S T V) → Except String (Predciate S T V)
  | none => .ok truePredciate
  | some (.callable p) => .ok p
  | some (.plain v) =>
    if v.truthy then .error "is NO valid lambda expression!"
    else .ok truePredciate

/-- The record `toOrDefaultArgs` returns. -/
structure OrDefaultArgs (S T V : Type) : Type where
  predicate : Predciate S T V
  defaultValue : JVal

/-- The argument list of an `...OrDefault` call:
`arguments.length` is 0, 1 or 2. -/
inductive OrDefaultCall (S T V : Type) : Type where
  | noArgs
  | one (a : PredOrVal S T V)
  | two (a : PredOrVal S T V) (d : JVal)

/-- The `predicateOrDefaultValue` argument of the call (`undefined` when
absent). -/
def OrDefaultCall.predArg {S T V : Type} :
    OrDefaultCall S T V → Option (PredOrVal S T V)
  | .noArgs => none
  | .one a => some a
  | .two a _ => some a

/-- The `defaultValue` argument of the call (`undefined` when absent). -/
def OrDefaultCall.defArg {S T V : Type} : OrDefaultCall S T V → JVal
  | .two _ d => d
  | _ => .undefined

/-- `arguments.length` of the call. -/
def OrDefaultCall.argCount {S T V : Type} : OrDefaultCall S T V → Nat
  | .noArgs => 0
  | .one _ => 1
  | .two _ _ => 2

/-- `toOrDefaultArgs(predicateOrDefaultValue, defaultValue, argCount)`
(src/lib/index.ts:3514-3530): when `false === asFunc(predicate, false)` and
exactly one argument was supplied, that argument becomes the default value
and the predicate is cleared; both are then passed through
`toPredicateSafe`. -/
def toOrDefaultArgs {S T V : Type} (call : OrDefaultCall S T V) :
    Except String (OrDefaultArgs S T V) :=
  if isLiteralFalse (asFuncNoThrow call.predArg) && call.argCount == 1 then
    .ok { predicate := truePredciate,
          defaultValue :=
            match call.predArg with
            | some (.plain v) => v
            | _ => .undefined }
  else do
    let p ← toPredicateSafeModel call.predArg
    pure { predicate := p, defaultValue := call.defArg }

namespace Enumerable

/-! ### `firstOrDefault` / `lastOrDefault` / `single` / `singleOrDefault`
(src/lib/index.ts:1636-1673, 2034-2068, 2297-2336, 2338-2378)

The result of an `...OrDefault` method is either a found item (`Sum.inl`)
or the default value (`Sum.inr`). -/

/-- The driving loop of `firstOrDefault`. -/
def firstOrDefaultLoop {S T V : Type} (p : Predciate S T V) (defVal : JVal) :
    Nat → S → Option V → Option V → List T → T ⊕ JVal
  | _, _, _, _, [] => .inr defVal
  | index, s, prevVal, value, x :: rest =>
    let r := p s x (mkCtx index x prevVal value)
    if r.2.2.cancel then .inr defVal
    else if r.1 then .inl x
    else firstOrDefaultLoop p defVal (index + 1) r.2.1 r.2.2.nextValue
      r.2.2.value rest

/-- `Enumerable.firstOrDefault(predicateOrDefaultValue, defaultValue)`. -/
def firstOrDefault {S T V : Type} (call : OrDefaultCall S T V) (s0 : S)
    (xs : List T) : Except String (T ⊕ JVal) := do
  let args ← toOrDefaultArgs call
  pure (firstOrDefaultLoop args.predicate args.defaultValue 0 s0 none none xs)

/-- The driving loop of `lastOrDefault`: `acc` holds the latest match
(`found` / `result` in the source). -/
def lastOrDefaultLoop {S T V : Type} (p : Predciate S T V) (defVal : JVal) :
    Nat → S → Option V → Option V → Option T → List T → T ⊕ JVal
  | _, _, _, _, acc, [] =>
    match acc with
    | some r => .inl r
    | none => .inr defVal
  | index, s, prevVal, value, acc, x :: rest =>
    let r := p s x (mkCtx index x prevVal value)
    if r.2.2.cancel then
      match acc with
      | some r' => .inl r'
      | none => .inr defVal
    else lastOrDefaultLoop p defVal (index + 1) r.2.1 r.2.2.nextValue
      r.2.2.value (if r.1 then some x else acc) rest

/-- `Enumerable.lastOrDefault(predicateOrDefaultValue, defaultValue)`. -/
def lastOrDefault {S T V : Type} (call : OrDefaultCall S T V) (s0 : S)
    (xs : List T) : Except String (T ⊕ JVal) := do
  let args ← toOrDefaultArgs call
  pure (lastOrDefaultLoop args.predicate args.defaultValue 0 s0 none none
    none xs)

/-- The driving loop of `single`: a second match throws immediately;
termination (or a `cancel` break) with no match throws the not-found
failure. -/
def singleLoop {S T V : Type} (p : Predciate S T V) :
    Nat → S → Option V → Option V → Option T → List T → Except String T
  | _, _, _, _, acc, [] =>
    match acc with
    | some r => .ok r
    | none => .error "No matching element found!"
  | index, s, prevVal, value, acc, x :: rest =>
    let r := p s x (mkCtx index x prevVal value)
    if r.2.2.cancel then
      match acc with
      | some r' => .ok r'
      | none => .error "No matching element found!"
    else if r.1 then
      match acc with
      | none => singleLoop p (index + 1) r.2.1 r.2.2.nextValue r.2.2.value
          (some x) rest
      | some _ => .error "Sequence contains more than one matching element!"
    else singleLoop p (index + 1) r.2.1 r.2.2.nextValue r.2.2.value acc rest

/-- `Enumerable.single(predicate)`. -/
def single {S T V : Type} (p : Predciate S T V) (s0 : S) (xs : List T) :
    Except String T :=
  singleLoop p 0 s0 none none none xs

/-- The driving loop of `singleOrDefault`: a second match still throws; no
match yields the default value. -/
def singleOrDefaultLoop {S T V : Type} (p : Predciate S T V) (defVal : JVal) :
    Nat → S → Option V → Option V → Option T → List T →
      Except String (T ⊕ JVal)
  | _, _, _, _, acc, [] =>
    match acc with
    | some r => .ok (.inl r)
    | none => .ok (.inr defVal)
  | index, s, prevVal, value, acc, x :: rest =>
    let r := p s x (mkCtx index x prevVal value)
    if r.2.2.cancel then
      match acc with
      | some r' => .ok (.inl r')
      | none => .ok (.inr defVal)
    else if r.1 then
      match acc with
      | none => singleOrDefaultLoop p defVal (index + 1) r.2.1
          r.2.2.nextValue r.2.2.value (some x) rest
      | some _ => .error "Sequence contains more than one matching element!"
    else singleOrDefaultLoop p defVal (index + 1) r.2.1 r.2.2.nextValue
      r.2.2.value acc rest

/-- `Enumerable.singleOrDefault(predicateOrDefaultValue, defaultValue)`. -/
def singleOrDefault {S T V : Type} (call : OrDefaultCall S T V) (s0 : S)
    (xs : List T) : Except String (T ⊕ JVal) := do
  let args ← toOrDefaultArgs call
  singleOrDefaultLoop args.predicate args.defaultValue 0 s0 none none
    none xs

/-! ### `toArray` (src/lib/index.ts:2520-2562)

Without a key selector the per-item action is `arr.push(ctx.item)`.  With a
key selector the action is
`let k = ks(e.key, ctx.item, ctx); arr[k];` — the target slot `k` is
computed and then `arr[k]` is merely *read*; nothing is ever assigned, so
the array stays empty.  The `ctx.cancel` check happens before the deferred
action runs, at which point the fresh context still has `cancel = false`,
so the loop never breaks. -/

/-- A key selector callback `(key, item, ctx) => slot` with closure state
`S`; the `key` argument receives the enumerator's `key` (its current
index). -/
abbrev KeySelFn (S T V : Type) :=
  S → Nat → T → ItemContext T V → Int × S × ItemContext T V

/-- The driving loop of `toArray`. -/
def toArrayLoop {S T V : Type} (ks : Option (KeySelFn S T V)) :
    Nat → S → Option V → Option V → List T → List T
  | _, _, _, _, [] => []
  | index, s, prevVal, value, x :: rest =>
    let ctx0 : ItemContext T V := mkCtx index x prevVal value
    match ks with
    | none =>
      -- action: arr.push(ctx.item)
      x :: toArrayLoop none (index + 1) s ctx0.nextValue ctx0.value rest
    | some k =>
      -- action: compute the slot, then evaluate `arr[k]` — a bare read;
      -- the item is never stored
      let r := k s index x ctx0
      toArrayLoop (some k) (index + 1) r.2.1 r.2.2.nextValue r.2.2.value rest

/-- `Enumerable.toArray(keySelector)`. -/
def toArray {S T V : Type} (ks : Option (KeySelFn S T V)) (s0 : S)
    (xs : List T) : List T :=
  toArrayLoop ks 0 s0 none none xs

end Enumerable

/-! ### `Collection` (src/lib/index.ts:2744-2920)

An array-backed mutable collection with a `_hasChanged` flag
(`markAsChanged` sets it after running the mutation).  Every mutating
method calls `throwIfReadOnly()` first — and `throwIfReadOnly`
(src/lib/index.ts:2917-2919) throws `"Collection is read-only!"`
*unconditionally*, never consulting the `isReadonly` getter (which returns
`false` for `Collection`/`List`/`HashSet` and `true` only for
`ReadOnlyCollection`). -/

/-- The state of a `Collection<T>`: backing array, the value of the
`isReadonly` getter of the concrete class, and the `_hasChanged` flag. -/
structure Collection (T : Type) : Type where
  arr : List T
  isReadonly : Bool
  hasChanged : Bool
  deriving Repr, DecidableEq

/-- A freshly constructed, mutable `Collection` (its `isReadonly` getter
returns `false`). -/
def mkCollection {T : Type} (xs : List T) : Collection T :=
  { arr := xs, isReadonly := false, hasChanged := false }

/-- A freshly constructed `ReadOnlyCollection` (its `isReadonly` getter
returns `true`). -/
def mkReadOnlyCollection {T : Type} (xs : List T) : Collection T :=
  { arr := xs, isReadonly := true, hasChanged := false }

namespace Collection

/-- `Collection.throwIfReadOnly` (src/lib/index.ts:2917-2919): the body is
a single unconditional `throw "Collection is read-only!";`. -/
def throwIfReadOnly {T : Type} (_c : Collection T) : Except String Unit :=
  .error "Collection is read-only!"

/-- `Collection.add(item)`: `throwIfReadOnly`, then push onto the backing
array inside `markAsChanged`. -/
def add {T : Type} (c : Collection T) (item : T) :
    Except String (Collection T) := do
  c.throwIfReadOnly
  pure { c with arr := c.arr ++ [item], hasChanged := true }

/-- `Collection.addRange(...items)`: `add` each item in turn. -/
def addRange {T : Type} (c : Collection T) (items : List T) :
    Except String (Collection T) :=
  items.foldlM add c

/-- `Collection.push(...items)`: `throwIfReadOnly`, then `addRange`, then
return the new length. -/
def push {T : Type} (c : Collection T) (items : List T) :
    Except String (Collection T × Nat) := do
  c.throwIfReadOnly
  let c2 ← c.addRange items
  pure (c2, c2.arr.length)

/-- `Collection.clear()`: `throwIfReadOnly`, then replace the backing array
by `[]` inside `markAsChanged`. -/
def clear {T : Type} (c : Collection T) : Except String (Collection T) := do
  c.throwIfReadOnly
  pure { c with arr := [], hasChanged := true }

/-- `Collection.setItem(index, item)`: `throwIfReadOnly`, then assign the
slot inside `markAsChanged`. -/
def setItem {T : Type} (c : Collection T) (index : Nat) (item : T) :
    Except String (Collection T) := do
  c.throwIfReadOnly
  pure { c with arr := c.arr.set index item, hasChanged := true }

/-- `Collection.removeAll(predicate)`: `throwIfReadOnly` first — which
always throws, so the scan-and-splice loop that follows it in the source is
unreachable and is not modelled further. -/
def removeAll {T : Type} (c : Collection T) (_p : T → Bool) :
    Except String (Collection T × Nat) := do
  c.throwIfReadOnly
  pure (c, 0)

/-- `Collection.remove(item)`: delegates to `removeAll` (whose
`throwIfReadOnly` throws before the closure passed to it can run). -/
def remove {T : Type} (c : Collection T) (cmp : T → T → Bool) (item : T) :
    Except String (Collection T × Bool) := do
  let r ← c.removeAll (fun x => cmp x item)
  pure (r.1, decide (r.2 > 0))

/-- `List.insert(index, item)` (src/lib/index.ts:3144-3152):
`throwIfReadOnly`, then `splice(index, 0, item)` inside `markAsChanged`. -/
def insert {T : Type} (c : Collection T) (index : Nat) (item : T) :
    Except String (Collection T) := do
  c.throwIfReadOnly
  pure { c with
          arr := c.arr.take index ++ item :: c.arr.drop index
          hasChanged := true }

/-- `List.removeAt(index)` (src/lib/index.ts:3155-3168):
`throwIfReadOnly`, then splice the slot out when the index is in range. -/
def removeAt {T : Type} (c : Collection T) (index : Nat) :
    Except String (Collection T × Bool) := do
  c.throwIfReadOnly
  if index < c.arr.length then
    pure ({ c with
             arr := c.arr.take index ++ c.arr.drop (index + 1)
             hasChanged := true }, true)
  else
    pure (c, false)

end Collection

/-! ### `OrderedEnumerable` (src/lib/index.ts:3194-3308)

The constructor eagerly evaluates the sort key of every source item (with
the context protocol threaded across that pass), pairs each key with its
item, sorts the pairs with the `toComparerSafe`-wrapped comparer, and keeps
the permuted items as the iteration source.  `thenBy` re-sorts the
*original* item array with a composite selector/comparer. -/

/-- The sign-clamping wrapper `toComparerSafe` applies to a custom comparer
(src/lib/index.ts:3436-3451). -/
def sgn (n : Int) : Int :=
  if n > 0 then 1 else if n < 0 then -1 else 0

/-- `toComparerSafe(func)` for a supplied comparer function. -/
def toComparerSafeFn {U : Type} (c : U → U → Int) : U → U → Int :=
  fun x y => sgn (c x y)

/-- `toComparerSafe(undefined)`: the default
`x < y ? -1 : (x > y ? 1 : 0)` comparer. -/
def defaultComparer {U : Type} [LinearOrder U] : U → U → Int :=
  fun x y => if x < y then -1 else if x > y then 1 else 0

/-- Stable insertion of `a` (arriving later) into an already processed
prefix: `a` is placed before `b` exactly when the comparator says
`cmp(a, b) < 0`, so equal-comparing elements keep their input order. -/
def insertLate {α : Type} (cmp : α → α → Int) (a : α) : List α → List α
  | [] => [a]
  | b :: bs => if cmp a b < 0 then a :: b :: bs else b :: insertLate cmp a bs

/-- `Array.prototype.sort(cmp)`, modelled as a stable sort (ECMAScript
requires sort stability); extensionally equal to the engine's sort for
consistent comparators. -/
def jsSort {α : Type} (cmp : α → α → Int) (xs : List α) : List α :=
  xs.foldl (fun acc x => insertLate cmp x acc) []

/-- The eager key-evaluation pass of the `OrderedEnumerable` constructor
(src/lib/index.ts:3231-3248): one context per item, threading
`prevValue` / `value`, producing `(sortBy, value)` pairs.  (`oi.moveNext()`
always succeeds on the same array and the `sortValue` objects are truthy,
so the `filter(x => !!x)` keeps every pair.) -/
def orderedKeysLoop {S T U V : Type} (sel : SelectorFn S T U V) :
    Nat → S → Option V → Option V → List T → List (U × T)
  | _, _, _, _, [] => []
  | index, s, prevVal, value, x :: rest =>
    let r := sel s x (mkCtx index x prevVal value)
    (r.1, x) :: orderedKeysLoop sel (index + 1) r.2.1 r.2.2.nextValue
      r.2.2.value rest

/-- The state of an `OrderedEnumerable<T, U>`: the `toComparerSafe`-wrapped
primary comparer, the primary selector (with its initial closure state),
the original unsorted items, and the materialized sorted items backing the
enumerator. -/
structure OrderedEnumerable (S T U V : Type) : Type where
  orderComparer : U → U → Int
  orderSelector : SelectorFn S T U V
  selectorState : S
  originalItems : List T
  sortedItems : List T

/-- The `OrderedEnumerable` constructor: wrap the comparer, evaluate the
keys, sort the `(sortBy, value)` pairs, keep the permuted items. -/
def mkOrderedEnumerable {S T U V : Type} (seqItems : List T)
    (sel : SelectorFn S T U V) (s0 : S) (cmpRaw : U → U → Int) :
    OrderedEnumerable S T U V :=
  let cmp := toComparerSafeFn cmpRaw
  { orderComparer := cmp
    orderSelector := sel
    selectorState := s0
    originalItems := seqItems
    sortedItems :=
      (jsSort (fun a b => cmp a.1 b.1)
        (orderedKeysLoop sel 0 s0 none none seqItems)).map Prod.snd }

/-- `Enumerable.orderBy(selector, comparer)`: construct an
`OrderedEnumerable` over this sequence (an absent comparer is modelled by
passing `defaultComparer`, which the sign wrapper fixes). -/
def orderBy {S T U V : Type} (xs : List T) (sel : SelectorFn S T U V)
    (s0 : S) (cmpRaw : U → U → Int) : OrderedEnumerable S T U V :=
  mkOrderedEnumerable xs sel s0 cmpRaw

namespace OrderedEnumerable

/-- `OrderedEnumerable.thenBy(selector, comparer)`
(src/lib/index.ts:3272-3294): a *new* sort of the *original* items, whose
selector produces the pair `(level_0, level_1)` — primary key first, both
selectors invoked on the same context in order — and whose comparer
compares `level_0` with the primary comparer and falls through to
`level_1` only on a tie. -/
def thenBy {S T U V S2 U2 : Type} (o : OrderedEnumerable S T U V)
    (sel2 : SelectorFn S2 T U2 V) (s20 : S2) (cmp2Raw : U2 → U2 → Int) :
    OrderedEnumerable (S × S2) T (U × U2) V :=
  let c := toComparerSafeFn cmp2Raw
  mkOrderedEnumerable o.originalItems
    (fun ss x ctx =>
      let r1 := o.orderSelector ss.1 x ctx
      let r2 := sel2 ss.2 x r1.2.2
      ((r1.1, r2.1), (r1.2.1, r2.2.1), r2.2.2))
    (o.selectorState, s20)
    (fun p q =>
      let compLevel0 := o.orderComparer p.1 q.1
      if compLevel0 ≠ 0 then compLevel0 else c p.2 q.2)

/-- `toArray()` on an ordered sequence: the plain `Enumerable.toArray`
drive over the materialized sorted items. -/
def toArray {S T U V : Type} (o : OrderedEnumerable S T U V) : List T :=
  Enumerable.toArray (S := Unit) (V := Unit) none () o.sortedItems

end OrderedEnumerable

/-- A selector with no captured state and no context effect. -/
def pureSel {S T U V : Type} (f : T → U) : SelectorFn S T U V :=
  fun s x ctx => (f x, s, ctx)

/-! ### Lemmas about `distinctInner` -/

theorem distinctInner_idem {T : Type} (ec : T → T → Bool) :
    ∀ (xs temp : List T),
      Enumerable.distinctInner ec temp (Enumerable.distinctInner ec temp xs)
        = Enumerable.distinctInner ec temp xs
  | [], temp => by simp [Enumerable.distinctInner]
  | x :: rest, temp => by
    by_cases h : temp.any (fun existingItem => ec x existingItem)
    · simp only [Enumerable.distinctInner, h, if_true]
      exact distinctInner_idem ec rest temp
    · simp only [Enumerable.distinctInner, h, if_false, Bool.false_eq_true]
      rw [distinctInner_idem ec rest (temp ++ [x])]

theorem distinctInner_eq_firstOccurrencesAux {T : Type} (ec : T → T → Bool) :
    ∀ (xs temp : List T),
      Enumerable.distinctInner ec temp xs = firstOccurrencesAux ec temp xs
  | [], _ => rfl
  | x :: rest, temp => by
    by_cases h : temp.any (fun existingItem => ec x existingItem)
    · simp only [Enumerable.distinctInner, firstOccurrencesAux, h, if_true]
      exact distinctInner_eq_firstOccurrencesAux ec rest temp
    · simp only [Enumerable.distinctInner, firstOccurrencesAux, h,
        if_false, Bool.false_eq_true]
      rw [distinctInner_eq_firstOccurrencesAux ec rest (temp ++ [x])]

theorem distinctInner_sublist {T : Type} (ec : T → T → Bool) :
    ∀ (xs temp : List T), (Enumerable.distinctInner ec temp xs).Sublist xs
  | [], _ => List.Sublist.refl _
  | x :: rest, temp => by
    by_cases h : temp.any (fun existingItem => ec x existingItem)
    · simp only [Enumerable.distinctInner, h, if_true]
      exact (distinctInner_sublist ec rest temp).cons x
    · simp only [Enumerable.distinctInner, h, if_false, Bool.false_eq_true]
      exact (distinctInner_sublist ec rest (temp ++ [x])).cons₂ x

theorem distinctInner_not_temp {T : Type} (ec : T → T → Bool) :
    ∀ (xs temp : List T), ∀ b ∈ Enumerable.distinctInner ec temp xs,
      ∀ a ∈ temp, ec b a = false
  | [], _ => by simp [Enumerable.distinctInner]
  | x :: rest, temp => by
    by_cases h : temp.any (fun existingItem => ec x existingItem)
    · simp only [Enumerable.distinctInner, h, if_true]
      exact distinctInner_not_temp ec rest temp
    · simp only [Enumerable.distinctInner, h, if_false, Bool.false_eq_true]
      intro b hb a ha
      rcases List.mem_cons.mp hb with hbx | hbtail
      · subst hbx
        have := List.any_eq_false.mp (Bool.not_eq_true _ ▸ h) a ha
        simpa using this
      · exact distinctInner_not_temp ec rest (temp ++ [x]) b hbtail a
          (List.mem_append_left _ ha)

theorem distinctInner_pairwise {T : Type} (ec : T → T → Bool) :
    ∀ (xs temp : List T),
      (Enumerable.distinctInner ec temp xs).Pairwise
        (fun a b => ec b a = false)
  | [], _ => by simp [Enumerable.distinctInner]
  | x :: rest, temp => by
    by_cases h : temp.any (fun existingItem => ec x existingItem)
    · simp only [Enumerable.distinctInner, h, if_true]
      exact distinctInner_pairwise ec rest temp
    · simp only [Enumerable.distinctInner, h, if_false, Bool.false_eq_true]
      refine List.Pairwise.cons ?_ (distinctInner_pairwise ec rest (temp ++ [x]))
      intro b hb
      exact distinctInner_not_temp ec rest (temp ++ [x]) b hb x
        (List.mem_append_right _ (List.mem_singleton_self x))

/-- Claim C9: for every input sequence and every equality comparer, applying
`distinct` twice with the same comparer yields the same items as applying it
once. -/
theorem distinct_idempotent {T : Type} (ec : T → T → Bool) (xs : List T) :
    Enumerable.distinct ec (Enumerable.distinct ec xs)
      = Enumerable.distinct ec xs :=
  distinctInner_idem ec xs []

/-- Claim C10: `distinct` yields exactly the items that are not
comparer-equal to any previously yielded item, in source order: its output
coincides with the subsequence of first occurrences built from the claim's
wording, is a sublist of the input, and no later output item is
comparer-equal to an earlier one. -/
theorem distinct_first_occurrences {T : Type} (ec : T → T → Bool)
    (xs : List T) :
    Enumerable.distinct ec xs = firstOccurrences ec xs
      ∧ (Enumerable.distinct ec xs).Sublist xs
      ∧ (Enumerable.distinct ec xs).Pairwise (fun a b => ec b a = false) :=
  ⟨distinctInner_eq_firstOccurrencesAux ec xs [],
   distinctInner_sublist ec xs [],
   distinctInner_pairwise ec xs []⟩

/-! ### `toArray` lemmas -/

theorem toArrayLoop_none {S T V : Type} (s : S) :
    ∀ (xs : List T) (i : Nat) (pv v : Option V),
      Enumerable.toArrayLoop none i s pv v xs = xs
  | [], _, _, _ => rfl
  | x :: rest, i, pv, v => by
    simp only [Enumerable.toArrayLoop]
    rw [toArrayLoop_none s rest]

/-- Claim C1: the claim says a non-read-only `Collection` (and `List` /
`HashSet`) performs each mutation and sets the changed flag, failing only
on a read-only variant — but `throwIfReadOnly` throws unconditionally, so
*every* mutating call fails with the read-only failure even though
`isReadonly` is `false`. -/
theorem collection_mutators_always_throw :
    (mkCollection ([] : List ℕ)).isReadonly = false
    ∧ Collection.add (mkCollection ([] : List ℕ)) 5
        = .error "Collection is read-only!"
    ∧ Collection.addRange (mkCollection ([] : List ℕ)) [1, 2]
        = .error "Collection is read-only!"
    ∧ Collection.push (mkCollection ([] : List ℕ)) [1]
        = .error "Collection is read-only!"
    ∧ Collection.clear (mkCollection [(1 : ℕ)])
        = .error "Collection is read-only!"
    ∧ Collection.remove (mkCollection [(1 : ℕ)]) (fun a b => a == b) 1
        = .error "Collection is read-only!"
    ∧ Collection.removeAll (mkCollection [(1 : ℕ)]) (fun _ => true)
        = .error "Collection is read-only!"
    ∧ Collection.setItem (mkCollection [(1 : ℕ)]) 0 2
        = .error "Collection is read-only!"
    ∧ Collection.insert (mkCollection ([] : List ℕ)) 0 1
        = .error "Collection is read-only!"
    ∧ Collection.removeAt (mkCollection [(1 : ℕ)]) 0
        = .error "Collection is read-only!" :=
  ⟨rfl, rfl, rfl, rfl, rfl, rfl, rfl, rfl, rfl, rfl⟩

/-- Claim C2: without a key selector `toArray` appends every item in
iteration order (first conjunct, as the claim states); with a key selector
the claim says each item is stored at the slot the selector computes, but
the code evaluates `arr[k]` without assigning, so the result is the empty
array even for the identity slot assignment over `[10, 20]`. -/
theorem toArray_key_selector :
    (∀ (T : Type) (xs : List T),
        Enumerable.toArray (S := Unit) (V := Unit) none () xs = xs)
    ∧ Enumerable.toArray (V := Unit)
        (some (fun (s : Unit) (k : Nat) (_x : ℕ) ctx => ((k : Int), s, ctx)))
        () [(10 : ℕ), 20] = [] :=
  ⟨fun _T xs => toArrayLoop_none () xs 0 none none, rfl⟩

/-- Claim C6: on a non-empty sequence, `first()` with no predicate returns
the same value as `elementAt(0)`. -/
theorem first_eq_elementAt_zero {T : Type} (x : T) (rest : List T) :
    Enumerable.first (truePredciate (S := Unit) (V := Unit)) () (x :: rest)
      = Enumerable.elementAt (x :: rest) 0 :=
  rfl

/-! ### `aggregate` lemmas -/

theorem aggregateLoop_pure {S R T V : Type} (f : R → T → R) (seed : T → R) :
    ∀ (xs : List T) (i : Nat) (s : S) (pv v : Option V) (r : R), 1 ≤ i →
      Enumerable.aggregateLoop (Enumerable.pureAgg f) seed i s pv v r xs = xs.foldl f r
  | [], _, _, _, _, _, _ => rfl
  | x :: rest, i, s, pv, v, r, hi => by
    have hne : i ≠ 0 := by omega
    simp only [Enumerable.aggregateLoop, hne, Enumerable.pureAgg, mkCtx, List.foldl_cons,
      ne_eq, not_false_eq_true, if_true]
    exact aggregateLoop_pure f seed rest (i + 1) s none v (f r x) (by omega)

theorem aggregateLoop_cancelAt {R T V : Type} (f : R → T → R) (N : Nat)
    (seed : T → R) :
    ∀ (xs : List T) (i : Nat) (pv v : Option V) (r : R), 1 ≤ i →
      Enumerable.aggregateLoop (Enumerable.cancelAtAgg (V := V) f N) seed i () pv v r xs
        = if i ≤ N then (xs.take (N - i)).foldl f r else xs.foldl f r
  | [], i, pv, v, r, _ => by simp [Enumerable.aggregateLoop]
  | x :: rest, i, pv, v, r, hi => by
    have hne : i ≠ 0 := by omega
    simp only [Enumerable.aggregateLoop, hne, Enumerable.cancelAtAgg, mkCtx,
      ne_eq, not_false_eq_true, if_true]
    by_cases hiN : i = N
    · simp [hiN, Nat.sub_self]
    · have hcancel : (i == N) = false := by simp [hiN]
      simp only [hcancel, Bool.false_eq_true, if_false]
      rw [aggregateLoop_cancelAt f N seed rest (i + 1) none v (f r x)
        (by omega)]
      by_cases hle : i ≤ N
      · have hlt : i < N := by omega
        have h1 : i + 1 ≤ N := by omega
        have htake : (x :: rest).take (N - i) = x :: rest.take (N - (i + 1)) := by
          have : N - i = (N - (i + 1)) + 1 := by omega
          simp [this]
        simp [hle, h1, htake]
      · have h1 : ¬ (i + 1 ≤ N) := by omega
        simp [hle, h1]

/-- Claim C4: `aggregate` seeds the running result with the first item
(no aggregator call), invokes the aggregator as
`(runningResult, item, ctx) -> newResult` from the second item on, returns
the default value on an empty source (with *any* aggregator — the context
is created fresh and untouched at index 0, so no cancellation can precede
the first result), and otherwise returns the terminal running result: for
a pure aggregator this is exactly a left fold of the tail over the seeded
first item. -/
theorem aggregate_seeds_first_then_folds :
    ∀ (S R T V : Type) (a : AggregatorFn S R T V) (s0 : S) (seed : T → R)
      (d : R) (f : R → T → R) (xs : List T),
      Enumerable.aggregate a s0 seed d ([] : List T) = d
      ∧ Enumerable.aggregate (Enumerable.pureAgg (S := S) (V := V) f) s0 seed
            d xs
          = match xs with
            | [] => d
            | x :: rest => rest.foldl f (seed x) := by
  intro S R T V a s0 seed d f xs
  refine ⟨rfl, ?_⟩
  cases xs with
  | nil => rfl
  | cons x rest =>
    show Enumerable.aggregateLoop (Enumerable.pureAgg f) seed 0 s0 none none d
        (x :: rest) = rest.foldl f (seed x)
    simp only [Enumerable.aggregateLoop, mkCtx, ne_eq, not_true_eq_false,
      if_false, reduceIte]
    exact aggregateLoop_pure f seed rest 1 s0 none none (seed x) (by omega)

/-! ### Cancellation lemmas (`where`, `count`) -/

theorem whereInner_cancelAt {T V : Type} (m : T → Bool) (n : Nat) :
    ∀ (xs : List T) (i : Nat) (pv v : Option V),
      Enumerable.whereInner (Enumerable.cancelAtPred m n) i () pv v xs
        = if i ≤ n then (xs.take (n - i)).filter m else xs.filter m
  | [], i, pv, v => by simp [Enumerable.whereInner]
  | x :: rest, i, pv, v => by
    simp only [Enumerable.whereInner, Enumerable.cancelAtPred, mkCtx]
    by_cases hin : i = n
    · simp [hin, Nat.sub_self]
    · have hcancel : (i == n) = false := by simp [hin]
      simp only [hcancel, Bool.false_eq_true, if_false]
      rw [whereInner_cancelAt m n rest (i + 1) none v]
      by_cases hle : i ≤ n
      · have h1 : i + 1 ≤ n := by omega
        have htake : (x :: rest).take (n - i) = x :: rest.take (n - (i + 1)) := by
          have : n - i = (n - (i + 1)) + 1 := by omega
          simp [this]
        by_cases hm : m x <;> simp [hle, h1, htake, List.filter_cons, hm]
      · have h1 : ¬ (i + 1 ≤ n) := by omega
        by_cases hm : m x <;> simp [hle, h1, List.filter_cons, hm]

theorem countLoop_cancelAt {T V : Type} (m : T → Bool) (n : Nat) :
    ∀ (xs : List T) (i : Nat) (pv v : Option V) (cnt : Nat),
      Enumerable.countLoop (Enumerable.cancelAtPred m n) i () pv v cnt xs
        = cnt + (if i ≤ n then ((xs.take (n - i)).filter m).length
                 else (xs.filter m).length)
  | [], i, pv, v, cnt => by simp [Enumerable.countLoop]
  | x :: rest, i, pv, v, cnt => by
    simp only [Enumerable.countLoop, Enumerable.cancelAtPred, mkCtx]
    by_cases hin : i = n
    · simp [hin, Nat.sub_self]
    · have hcancel : (i == n) = false := by simp [hin]
      simp only [hcancel, Bool.false_eq_true, if_false]
      rw [countLoop_cancelAt m n rest (i + 1) none v]
      by_cases hle : i ≤ n
      · have h1 : i + 1 ≤ n := by omega
        have htake : (x :: rest).take (n - i) = x :: rest.take (n - (i + 1)) := by
          have : n - i = (n - (i + 1)) + 1 := by omega
          simp [this]
        by_cases hm : m x <;> simp [hle, h1, htake, List.filter_cons, hm] <;>
          omega
      · have h1 : ¬ (i + 1 ≤ n) := by omega
        by_cases hm : m x <;> simp [hle, h1, List.filter_cons, hm] <;>
          omega

/-- Claim C3 counterexample: a `where` predicate that matches and cancels
at index 0 yields nothing (the claim predicts the current item is still
yielded), a counting predicate that matches and cancels at index 0 counts
nothing (the claim predicts 1), and an adding aggregator that cancels at
index 1 over `[1, 2]` returns the seed `1` (the claim predicts the current
item is still folded, giving `3`). -/
theorem cancel_current_item_counterexample :
    Enumerable.whereSeq (Enumerable.cancelAtPred (V := Unit) (fun _ => true) 0) ()
        [(1 : ℕ)] = []
    ∧ ([] : List ℕ) ≠ [1]
    ∧ Enumerable.count (Enumerable.cancelAtPred (V := Unit) (fun _ => true) 0) ()
        [(7 : ℕ)] = 0
    ∧ (0 : ℕ) ≠ 1
    ∧ Enumerable.aggregate (Enumerable.cancelAtAgg (V := Unit) (· + ·) 1) ()
        (fun x => x) 0 [(1 : ℕ), 2] = 1
    ∧ (1 : ℕ) ≠ 3 := by
  exact ⟨rfl, by decide, rfl, by decide, rfl, by decide⟩

/-- Claim C3 (amended): when a callback sets `cancel = true`, the driving
loop stops *before* the current item's effect is applied — the item that
triggered the cancellation is not yielded, counted, or folded, and no
later item is considered.  A predicate cancelling at index `n` makes
`where` / `count` process exactly the first `n` items; an aggregator
cancelling at index `n + 1` (the aggregator is never invoked at index 0,
where the first item unconditionally seeds the result) makes `aggregate`
fold exactly the first `n + 1` items. -/
theorem cancel_stops_before_current_effect :
    ∀ (T V R : Type) (m : T → Bool) (n : Nat) (xs : List T) (f : R → T → R)
      (seed : T → R) (d : R),
      Enumerable.whereSeq (Enumerable.cancelAtPred (V := V) m n) () xs
          = (xs.take n).filter m
      ∧ Enumerable.count (Enumerable.cancelAtPred (V := V) m n) () xs
          = ((xs.take n).filter m).length
      ∧ Enumerable.aggregate (Enumerable.cancelAtAgg (V := V) f (n + 1)) () seed d xs
          = match xs.take (n + 1) with
            | [] => d
            | x :: rest => rest.foldl f (seed x) := by
  intro T V R m n xs f seed d
  refine ⟨?_, ?_, ?_⟩
  · show Enumerable.whereInner (Enumerable.cancelAtPred m n) 0 () none none xs = _
    rw [whereInner_cancelAt m n xs 0 none none]
    simp
  · show Enumerable.countLoop (Enumerable.cancelAtPred m n) 0 () none none 0 xs = _
    rw [countLoop_cancelAt m n xs 0 none none 0]
    simp
  · cases xs with
    | nil => rfl
    | cons x rest =>
      show Enumerable.aggregateLoop (Enumerable.cancelAtAgg f (n + 1)) seed 0 () none
          none d (x :: rest) = _
      simp only [Enumerable.aggregateLoop, mkCtx, ne_eq, not_true_eq_false,
        if_false, reduceIte]
      rw [aggregateLoop_cancelAt f (n + 1) seed rest 1 none none (seed x)
        (by omega)]
      simp [List.take_succ_cons]

/-! ### `single` / `singleOrDefault` lemmas -/

theorem singleLoop_pure {T V : Type} (q : T → Bool) :
    ∀ (xs : List T) (i : Nat) (pv v : Option V) (acc : Option T),
      Enumerable.singleLoop (pureP (S := Unit) q) i () pv v acc xs
        = match acc, xs.filter q with
          | some r, [] => .ok r
          | none, [] => .error "No matching element found!"
          | none, [y] => .ok y
          | some _, _ :: _ =>
            .error "Sequence contains more than one matching element!"
          | none, _ :: _ :: _ =>
            .error "Sequence contains more than one matching element!"
  | [], i, pv, v, acc => by cases acc <;> simp [Enumerable.singleLoop]
  | x :: rest, i, pv, v, acc => by
    simp only [Enumerable.singleLoop, pureP, mkCtx]
    by_cases hq : q x
    · cases acc with
      | none =>
        simp only [hq, if_true]
        rw [singleLoop_pure q rest (i + 1) none v (some x)]
        simp only [List.filter_cons, hq, if_true]
        cases hr : rest.filter q <;> simp
      | some a =>
        simp [hq, List.filter_cons]
    · simp only [hq, Bool.false_eq_true, if_false]
      rw [singleLoop_pure q rest (i + 1) none v acc]
      simp [List.filter_cons, hq]

theorem singleOrDefaultLoop_pure {T V : Type} (q : T → Bool) (d : JVal) :
    ∀ (xs : List T) (i : Nat) (pv v : Option V) (acc : Option T),
      Enumerable.singleOrDefaultLoop (pureP (S := Unit) q) d i () pv v acc xs
        = match acc, xs.filter q with
          | some r, [] => .ok (.inl r)
          | none, [] => .ok (.inr d)
          | none, [y] => .ok (.inl y)
          | some _, _ :: _ =>
            .error "Sequence contains more than one matching element!"
          | none, _ :: _ :: _ =>
            .error "Sequence contains more than one matching element!"
  | [], i, pv, v, acc => by cases acc <;> simp [Enumerable.singleOrDefaultLoop]
  | x :: rest, i, pv, v, acc => by
    simp only [Enumerable.singleOrDefaultLoop, pureP, mkCtx]
    by_cases hq : q x
    · cases acc with
      | none =>
        simp only [hq, if_true]
        rw [singleOrDefaultLoop_pure q d rest (i + 1) none v (some x)]
        simp only [List.filter_cons, hq, if_true]
        cases hr : rest.filter q <;> simp
      | some a =>
        simp [hq, List.filter_cons]
    · simp only [hq, Bool.false_eq_true, if_false]
      rw [singleOrDefaultLoop_pure q d rest (i + 1) none v acc]
      simp [List.filter_cons, hq]

/-- Claim C8: `single` and `singleOrDefault` fail when more than one
element satisfies the predicate; `single` also fails when none matches,
while `singleOrDefault` returns the default value in that case (and both
return the unique match otherwise). -/
theorem single_unique_match :
    ∀ (T V : Type) (q : T → Bool) (d : JVal) (xs : List T),
      Enumerable.single (pureP (S := Unit) (V := V) q) () xs
        = (match xs.filter q with
           | [] => .error "No matching element found!"
           | [x] => .ok x
           | _ :: _ :: _ =>
             .error "Sequence contains more than one matching element!")
      ∧ Enumerable.singleOrDefault
          (.two (.callable (pureP (S := Unit) (V := V) q)) d) () xs
        = (match xs.filter q with
           | [] => .ok (.inr d)
           | [x] => .ok (.inl x)
           | _ :: _ :: _ =>
             .error "Sequence contains more than one matching element!") := by
  intro T V q d xs
  constructor
  · show Enumerable.singleLoop (pureP (S := Unit) q) 0 () none none none xs = _
    rw [singleLoop_pure q xs 0 none none none]
    cases hr : xs.filter q with
    | nil => rfl
    | cons y ys => cases ys <;> rfl
  · show (do
        let args ← toOrDefaultArgs
          (.two (.callable (pureP (S := Unit) (V := V) q)) d)
        Enumerable.singleOrDefaultLoop args.predicate args.defaultValue 0 ()
          none none none xs) = _
    rw [show toOrDefaultArgs
          ((.two (.callable (pureP (S := Unit) (V := V) q)) d) :
            OrDefaultCall Unit T V)
        = .ok { predicate := pureP (S := Unit) q, defaultValue := d }
      from rfl]
    show Enumerable.singleOrDefaultLoop (pureP (S := Unit) q) d 0 () none
      none none xs = _
    rw [singleOrDefaultLoop_pure q d xs 0 none none none]
    cases hr : xs.filter q with
    | nil => rfl
    | cons y ys => cases ys <;> rfl

/-! ### `...OrDefault` argument-disambiguation lemmas -/

theorem toOrDefaultArgs_one_plain {S T V : Type} (v : JVal) :
    toOrDefaultArgs ((.one (.plain v)) : OrDefaultCall S T V)
      = .ok { predicate := truePredciate,
              defaultValue := if v.truthy || v == .jbool false then v
                              else .undefined } := by
  cases v with
  | undefined => rfl
  | jnull => rfl
  | jbool b => cases b <;> rfl
  | jnum n =>
    by_cases h : n = 0
    · subst h; rfl
    · have ht : (JVal.jnum n).truthy = true := by simp [JVal.truthy, h]
      simp [toOrDefaultArgs, OrDefaultCall.predArg, OrDefaultCall.argCount,
        asFuncNoThrow, isLiteralFalse, ht]
  | jstr s =>
    by_cases h : s = ""
    · subst h; rfl
    · have ht : (JVal.jstr s).truthy = true := by simp [JVal.truthy, h]
      simp [toOrDefaultArgs, OrDefaultCall.predArg, OrDefaultCall.argCount,
        asFuncNoThrow, isLiteralFalse, ht]

theorem lastOrDefaultLoop_truePred {S T V : Type} (d : JVal) :
    ∀ (xs : List T) (a : T) (i : Nat) (s : S) (pv v : Option V),
      Enumerable.lastOrDefaultLoop truePredciate d i s pv v (some a) xs
        = .inl (xs.getLastD a)
  | [], _, _, _, _, _ => rfl
  | x :: rest, a, i, s, pv, v => by
    simp only [Enumerable.lastOrDefaultLoop, truePredciate, mkCtx,
      Bool.false_eq_true, if_false, if_true]
    rw [lastOrDefaultLoop_truePred d rest x (i + 1) s none v]
    exact congrArg Sum.inl (List.getLastD_cons a x rest).symm

/-- Claim C5 counterexample: `firstOrDefault(0)` — exactly one extra
argument, the non-callable number `0` — does *not* treat `0` as the default
value: `asFunc` returns the falsy argument itself rather than the literal
`false`, so the `false === func` test fails and the default stays
`undefined`. -/
theorem orDefault_falsy_counterexample :
    Enumerable.firstOrDefault
        ((.one (.plain (.jnum 0))) : OrDefaultCall Unit ℕ Unit) ()
        ([] : List ℕ)
      = .ok (.inr JVal.undefined)
    ∧ JVal.undefined ≠ JVal.jnum 0 :=
  ⟨rfl, by decide⟩

/-- Claim C5 (amended): for `firstOrDefault` / `lastOrDefault` /
`singleOrDefault` called with exactly one extra non-callable (and
non-lambda) argument, that argument becomes the default value returned
when nothing matches whenever it is truthy or the literal `false`; for any
other falsy argument (`undefined`, `null`, `0`, `""`) the default value
stays `undefined`.  In every case the match predicate accepts every item,
so a non-empty sequence yields its first / last / unique item instead. -/
theorem orDefault_one_plain_argument :
    ∀ (S T V : Type) (s0 : S) (v : JVal) (x : T) (xs : List T),
      Enumerable.firstOrDefault ((.one (.plain v)) : OrDefaultCall S T V) s0
          ([] : List T)
        = .ok (.inr (if v.truthy || v == .jbool false then v else .undefined))
      ∧ Enumerable.firstOrDefault ((.one (.plain v)) : OrDefaultCall S T V)
          s0 (x :: xs) = .ok (.inl x)
      ∧ Enumerable.lastOrDefault ((.one (.plain v)) : OrDefaultCall S T V) s0
          ([] : List T)
        = .ok (.inr (if v.truthy || v == .jbool false then v else .undefined))
      ∧ Enumerable.lastOrDefault ((.one (.plain v)) : OrDefaultCall S T V) s0
          (x :: xs) = .ok (.inl (xs.getLastD x))
      ∧ Enumerable.singleOrDefault ((.one (.plain v)) : OrDefaultCall S T V)
          s0 ([] : List T)
        = .ok (.inr (if v.truthy || v == .jbool false then v else .undefined))
      ∧ Enumerable.singleOrDefault ((.one (.plain v)) : OrDefaultCall S T V)
          s0 [x] = .ok (.inl x) := by
  intro S T V s0 v x xs
  refine ⟨?_, ?_, ?_, ?_, ?_, ?_⟩ <;>
    simp only [Enumerable.firstOrDefault, Enumerable.lastOrDefault,
      Enumerable.singleOrDefault, toOrDefaultArgs_one_plain, bind, pure,
      Except.bind]
  · rfl
  · rfl
  · rfl
  · show Except.ok (Enumerable.lastOrDefaultLoop truePredciate _ 0 s0 none
      none none (x :: xs)) = _
    simp only [Enumerable.lastOrDefaultLoop, truePredciate, mkCtx,
      Bool.false_eq_true, if_false, if_true]
    rw [lastOrDefaultLoop_truePred _ xs x (0 + 1) s0 none none]
  · rfl
  · rfl

/-! ### Ordering lemmas -/

theorem sgn_sgn (n : Int) : sgn (sgn n) = sgn n := by
  simp only [sgn]
  split_ifs <;> omega

theorem orderedKeysLoop_pure {S T U V : Type} (h : T → U) :
    ∀ (xs : List T) (i : Nat) (s : S) (pv v : Option V),
      orderedKeysLoop (pureSel h) i s pv v xs = xs.map (fun x => (h x, x))
  | [], _, _, _, _ => rfl
  | x :: rest, i, s, pv, v => by
    simp only [orderedKeysLoop, pureSel, mkCtx, List.map_cons]
    rw [orderedKeysLoop_pure h rest (i + 1) s none v]

theorem insertLate_map_pair {T U2 : Type} (cmpU : U2 → U2 → Int)
    (h : T → U2) (x : T) :
    ∀ (zs : List T),
      insertLate (fun p q => cmpU p.1 q.1) (h x, x)
          (zs.map (fun t => (h t, t)))
        = (insertLate (fun a b => cmpU (h a) (h b)) x zs).map
            (fun t => (h t, t))
  | [] => rfl
  | b :: bs => by
    simp only [List.map_cons, insertLate]
    by_cases hc : cmpU (h x) (h b) < 0
    · simp [hc]
    · simp [hc, insertLate_map_pair cmpU h x bs]

theorem foldl_insertLate_pair {T U2 : Type} (cmpU : U2 → U2 → Int)
    (h : T → U2) :
    ∀ (xs acc : List T),
      List.foldl (fun a x => insertLate (fun p q => cmpU p.1 q.1) (h x, x) a)
          (acc.map (fun t => (h t, t))) xs
        = (List.foldl (fun a x => insertLate (fun p q => cmpU (h p) (h q)) x a)
            acc xs).map (fun t => (h t, t))
  | [], _ => rfl
  | x :: rest, acc => by
    simp only [List.foldl_cons]
    rw [insertLate_map_pair cmpU h x acc]
    exact foldl_insertLate_pair cmpU h rest _

theorem jsSort_pairs {T U2 : Type} (cmpU : U2 → U2 → Int) (h : T → U2)
    (xs : List T) :
    (jsSort (fun p q => cmpU p.1 q.1) (xs.map (fun t => (h t, t)))).map
        Prod.snd
      = jsSort (fun a b => cmpU (h a) (h b)) xs := by
  simp only [jsSort]
  rw [List.foldl_map]
  rw [show ([] : List (U2 × T)) = ([] : List T).map (fun t => (h t, t))
    from rfl]
  rw [foldl_insertLate_pair cmpU h xs []]
  rw [List.map_map]
  rw [show (Prod.snd ∘ fun t => (h t, t)) = id from rfl, List.map_id]

theorem thenBy_resort_general {T U U2 : Type} (xs : List T) (f : T → U)
    (g : T → U2) (c1 : U → U → Int) (c2 : U2 → U2 → Int) :
    ((orderBy xs (pureSel (S := Unit) (V := Unit) f) () c1).thenBy
        (pureSel (S := Unit) g) () c2).sortedItems
      = jsSort (fun a b =>
          if sgn (c1 (f a) (f b)) ≠ 0 then sgn (c1 (f a) (f b))
          else sgn (c2 (g a) (g b))) xs := by
  show (jsSort
      (fun a b => toComparerSafeFn
        (fun p q =>
          if toComparerSafeFn c1 p.1 q.1 ≠ 0 then toComparerSafeFn c1 p.1 q.1
          else toComparerSafeFn c2 p.2 q.2) a.1 b.1)
      (orderedKeysLoop (pureSel (fun t => (f t, g t))) 0 ((), ()) none none
        xs)).map Prod.snd = _
  rw [orderedKeysLoop_pure (fun t => (f t, g t)) xs 0 ((), ()) none none]
  have hwrap : (fun (a b : (U × U2) × T) => toComparerSafeFn
        (fun p q =>
          if toComparerSafeFn c1 p.1 q.1 ≠ 0 then toComparerSafeFn c1 p.1 q.1
          else toComparerSafeFn c2 p.2 q.2) a.1 b.1)
      = (fun a b =>
          (fun (k k' : U × U2) =>
            if sgn (c1 k.1 k'.1) ≠ 0 then sgn (c1 k.1 k'.1)
            else sgn (c2 k.2 k'.2)) a.1 b.1) := by
    funext a b
    simp only [toComparerSafeFn]
    by_cases hz : sgn (c1 a.1.1 b.1.1) ≠ 0
    · simp [hz, sgn_sgn]
    · simp [hz, sgn_sgn]
  rw [hwrap]
  exact jsSort_pairs
    (fun k k' =>
      if sgn (c1 k.1 k'.1) ≠ 0 then sgn (c1 k.1 k'.1)
      else sgn (c2 k.2 k'.2))
    (fun t => (f t, g t)) xs

/-- Claim C7: `thenBy` produces a new ordered sequence that re-sorts the
original pre-primary-sort item array with a composite comparer — primary
key first, secondary key only on a tie — stated generally for pure
selectors as an equation over the original input, and witnessed on the
claim's concrete instance
`orderBy(x => x.a).thenBy(x => x.b)` over `[{a:1,b:2},{a:1,b:1}]`. -/
theorem thenBy_composite_resort :
    (∀ (T U U2 : Type) (xs : List T) (f : T → U) (g : T → U2)
        (c1 : U → U → Int) (c2 : U2 → U2 → Int),
        ((orderBy xs (pureSel (S := Unit) (V := Unit) f) () c1).thenBy
            (pureSel (S := Unit) g) () c2).sortedItems
          = jsSort (fun a b =>
              if sgn (c1 (f a) (f b)) ≠ 0 then sgn (c1 (f a) (f b))
              else sgn (c2 (g a) (g b))) xs)
    ∧ OrderedEnumerable.toArray
        ((orderBy [((1 : ℕ), (2 : ℕ)), (1, 1)]
            (pureSel (S := Unit) (V := Unit) Prod.fst) ()
            defaultComparer).thenBy
          (pureSel (S := Unit) Prod.snd) () defaultComparer)
      = [(1, 1), (1, 2)] :=
  ⟨fun _T _U _U2 xs f g c1 c2 => thenBy_resort_general xs f g c1 c2,
   by decide⟩

end NodeEnumerable
